import Mathlib

/-!
Verification development for the tiktok_trends keyword crawler
(`tiktok_trends_csv.py`).

The Python module is shallowly embedded: Python values that flow through
the pipeline (JSON-ish metadata dictionaries, strings, integers, None)
are modelled by the inductive type `Value`; Python dictionaries are
association lists; fallible code returns `Except String`, with the error
message standing for the raised exception.  The external TikTok API is a
parameter: a function from a hashtag name to the (lazy, already bounded)
list of videos its `hashtag.videos` generator would yield.
-/

set_option autoImplicit false

namespace TiktokTrends

/-- Python values reaching this program: JSON-ish metadata fields.
`null` models Python `None`; nested objects are association lists.
(Floats and lists do not occur in the fields this program touches.) -/
inductive Value where
  | null : Value
  | int (n : Int) : Value
  | str (s : String) : Value
  | dict (entries : List (String × Value)) : Value

/-- A Python dict with string keys, as built by `fetch_for_keyword`. -/
abbrev Row := List (String × Value)

/-- Python `d.get(k)`: first binding of `k`, `None` when absent. -/
def dictGet (d : List (String × Value)) (k : String) : Value :=
  match d.find? (fun p => p.1 == k) with
  | some p => p.2
  | none => Value.null

/-- Python `d.get(k, dflt)`. -/
def dictGetD (d : List (String × Value)) (k : String) (dflt : Value) : Value :=
  match d.find? (fun p => p.1 == k) with
  | some p => p.2
  | none => dflt

/-- Python truthiness test (`not x`): `None`, `0`, `""` and `{}` are falsy. -/
def pyFalsy : Value → Bool
  | Value.null => true
  | Value.int n => n == 0
  | Value.str s => s == ""
  | Value.dict d => d.isEmpty

/-- Python `a or b`. -/
def pyOr (a b : Value) : Value :=
  if pyFalsy a then b else a

/-- The ASCII whitespace characters stripped by Python `str.strip()`
(unicode whitespace beyond ASCII is not modelled; no input here uses it). -/
def pyIsSpace (c : Char) : Bool :=
  c == ' ' || c == '\t' || c == '\n' || c == '\r' || c == '\x0b' || c == '\x0c'

/-- Strip elements satisfying `p` from both ends of a list. -/
def stripList {α : Type} (p : α → Bool) (l : List α) : List α :=
  ((l.dropWhile p).reverse.dropWhile p).reverse

/-- Python `s.strip()`. -/
def pyStrip (s : String) : String :=
  ⟨stripList pyIsSpace s.data⟩

/-- Characters matched by the separator pattern of
`re.split` in `get_ms_tokens` (whitespace, comma, semicolon). -/
def pyIsSepChar (c : Char) : Bool :=
  pyIsSpace c || c == ',' || c == ';'

/-- Worker for `splitSeps`: `cur` holds the current token, reversed. -/
def splitSepsGo (l : List Char) (cur : List Char) : List String :=
  match l with
  | [] => [⟨cur.reverse⟩]
  | c :: cs =>
    if pyIsSepChar c then
      String.mk cur.reverse :: splitSepsGo (cs.dropWhile pyIsSepChar) []
    else
      splitSepsGo cs (c :: cur)
termination_by l.length
decreasing_by
  · simp_wf
    exact Nat.lt_succ_of_le (List.dropWhile_sublist pyIsSepChar).length_le
  · simp_wf

/-- Python `re.split` on the separator class used by `get_ms_tokens`: splits on
maximal runs of separator characters, keeping empty fields at the ends
exactly as `re.split` does. -/
def splitSeps (s : String) : List String :=
  splitSepsGo s.data []

/-- Python `int(v)` on the values of the model: identity on integers,
base-10 parsing of (stripped, optionally signed) digit strings, and an
error (`ValueError` / `TypeError`) otherwise. -/
def pyIntOfStr (s : String) : Option Int :=
  let cs := (pyStrip s).data
  let signed : Int × List Char :=
    match cs with
    | '+' :: rest => (1, rest)
    | '-' :: rest => (-1, rest)
    | _ => (1, cs)
  if signed.2 ≠ [] ∧ signed.2.all Char.isDigit then
    some (signed.1 * (signed.2.foldl (fun a c => a * 10 + (c.toNat - '0'.toNat)) 0 : Nat))
  else
    none

/-- Python `int(v)` for a `Value`. -/
def pyInt : Value → Except String Int
  | Value.int n => Except.ok n
  | Value.str s =>
    match pyIntOfStr s with
    | some n => Except.ok n
    | none => Except.error "invalid literal for int() with base 10"
  | Value.null => Except.error "int() argument must not be None"
  | Value.dict _ => Except.error "int() argument must not be a dict"

/-- Python attribute access `v.get`: only dictionaries support it;
anything else raises `AttributeError`. -/
def asDict : Value → Except String (List (String × Value))
  | Value.dict d => Except.ok d
  | _ => Except.error "AttributeError: object has no attribute get"

/-- Worker for `parse_ms_tokens`: the loop of the Python function, with
the `seen` set modelled as the list of tokens kept so far. -/
def parseTokensGo : List String → List String → List String
  | [], _ => []
  | raw :: rest, seen =>
    let trimmed := pyStrip raw
    if trimmed = "" ∨ trimmed ∈ seen then parseTokensGo rest seen
    else trimmed :: parseTokensGo rest (trimmed :: seen)

/-- Function `parse_ms_tokens`: normalize ms_tokens preserving order and removing
duplicates. -/
def parse_ms_tokens (raw_tokens : List String) : List String :=
  parseTokensGo raw_tokens []

/-- The environment variable names probed by `get_ms_tokens`, in order. -/
def MS_TOKEN_ENV_NAMES : List String :=
  ["ms_token", "ms_tokens", "MS_TOKEN", "MS_TOKENS"]

/-- The token strings collected from the environment by `get_ms_tokens`
before normalization: each set, non-empty channel is split on the
separator class and the pieces are concatenated in channel order. -/
def collectTokens (env : String → Option String) : List String :=
  MS_TOKEN_ENV_NAMES.foldl
    (fun acc name =>
      match env name with
      | none => acc
      | some v => if v = "" then acc else acc ++ splitSeps v)
    []

/-- Function `get_ms_tokens`: retrieve ms_token values from the environment;
raises `RuntimeError` when no token survives normalization. -/
def get_ms_tokens (env : String → Option String) : Except String (List String) :=
  let tokens := parse_ms_tokens (collectTokens env)
  if tokens = [] then
    Except.error "No encontre ninguna cookie ms_token"
  else
    Except.ok tokens

/-- Function `ensure_ms_tokens`: wrapper around `get_ms_tokens`. -/
def ensure_ms_tokens (env : String → Option String) : Except String (List String) :=
  get_ms_tokens env

/-- Function `read_keywords`: read the first column of the parsed CSV rows and
return the cleaned keywords.  The CSV file is modelled already parsed
into its rows of cells. -/
def read_keywords : List (List String) → List String
  | [] => []
  | row :: rest =>
    match row with
    | [] => read_keywords rest
    | cell :: _ =>
      let keyword := pyStrip cell
      if keyword = "" then read_keywords rest
      else if keyword.toLower ∈ (["keyword", "palabra", "hashtag"] : List String) then
        read_keywords rest
      else keyword :: read_keywords rest

/-- Function `read_keywords_safe`: the input file is `none` when the path does not
exist (`FileNotFoundError`), otherwise its parsed rows; an empty keyword
list raises `RuntimeError`. -/
def read_keywords_safe (file : Option (List (List String))) : Except String (List String) :=
  match file with
  | none => Except.error "Input CSV not found"
  | some rows =>
    let keywords := read_keywords rows
    if keywords = [] then
      Except.error "No keywords found in the first column"
    else
      Except.ok keywords

/-- Default minimum like count. -/
def DEFAULT_MIN_LIKES : Int := 25000

/-- Default cap of accepted results per keyword. -/
def DEFAULT_MAX_PER_KEYWORD : Int := 20

/-- Upstream fetch window passed to `hashtag.videos`. -/
def FETCH_COUNT_PER_KEYWORD : Nat := 200

/-- One item yielded by the `hashtag.videos` generator: its `as_dict`
metadata and its `url` attribute. -/
structure Video where
  as_dict : List (String × Value)
  url : String

/-- Python `keyword.lstrip("#")`. -/
def lstripHashes (s : String) : String :=
  ⟨s.data.dropWhile (fun c => c == '#')⟩

/-- The row dictionary built by `fetch_for_keyword` for one accepted
video, with its keys in the insertion order of the Python dict literal. -/
def mkRow (keyword : String) (data stats author : List (String × Value))
    (like_count : Int) (url : String) : Row :=
  [("keyword", Value.str keyword),
   ("video_id", dictGet data "id"),
   ("description", dictGet data "desc"),
   ("like_count", Value.int like_count),
   ("comment_count", dictGet stats "commentCount"),
   ("share_count", dictGet stats "shareCount"),
   ("play_count", dictGet stats "playCount"),
   ("author_uniqueId", dictGet author "uniqueId"),
   ("author_nickname", dictGet author "nickname"),
   ("url", Value.str url)]

/-- Python `int(stats.get("diggCount", 0) or 0)`. -/
def extractLikeCount (stats : List (String × Value)) : Except String Int :=
  pyInt (pyOr (dictGetD stats "diggCount" (Value.int 0)) (Value.int 0))

/-- The body of the `async for` loop of `fetch_for_keyword` for one
video: `Except.error` when the body raises, `Except.ok none` when the
video is discarded by the threshold (`continue`), `Except.ok (some row)`
when a row is appended. -/
def processVideo (keyword : String) (min_likes : Int) (v : Video) :
    Except String (Option Row) :=
  match asDict (pyOr (dictGet v.as_dict "stats") (Value.dict [])) with
  | Except.error e => Except.error e
  | Except.ok stats =>
    match extractLikeCount stats with
    | Except.error e => Except.error e
    | Except.ok like_count =>
      if like_count < min_likes then Except.ok none
      else
        match asDict (pyOr (dictGet v.as_dict "author") (Value.dict [])) with
        | Except.error e => Except.error e
        | Except.ok author =>
          Except.ok (some (mkRow keyword v.as_dict stats author like_count v.url))

/-- The `async for` loop of `fetch_for_keyword`.  `n` is the number of
rows accepted so far (`len(results)` before the current iteration); the
returned pair carries the rows accepted from `videos` onward and the
suffix of the generator left unconsumed by the `break`. -/
def fetchGo (keyword : String) (min_likes max_results : Int) :
    List Video → Nat → Except String (List Row × List Video)
  | [], _ => Except.ok ([], [])
  | v :: rest, n =>
    match processVideo keyword min_likes v with
    | Except.error e => Except.error e
    | Except.ok none => fetchGo keyword min_likes max_results rest n
    | Except.ok (some row) =>
      if ((n + 1 : Nat) : Int) ≥ max_results then Except.ok ([row], rest)
      else
        match fetchGo keyword min_likes max_results rest (n + 1) with
        | Except.error e => Except.error e
        | Except.ok (rows, rem) => Except.ok (row :: rows, rem)

/-- Function `fetch_for_keyword`: fetch and filter videos for one keyword.  `api`
stands for the external capability: it maps the normalized hashtag name
to the sequence the (already `FETCH_COUNT_PER_KEYWORD`-bounded)
`hashtag.videos` generator would yield. -/
def fetch_for_keyword (api : String → List Video) (keyword : String)
    (min_likes max_results : Int) : Except String (List Row) :=
  (fetchGo keyword min_likes max_results (api (lstripHashes keyword)) 0).map Prod.fst

/-- The row produced for a video by one loop iteration, when one is:
used to state which candidates are accepted. -/
def acceptedRow (keyword : String) (min_likes : Int) (v : Video) : Option Row :=
  match processVideo keyword min_likes v with
  | Except.ok (some r) => some r
  | _ => none

/-- The ten fixed column names of the output CSV, as pre-declared in
`write_rows` for the empty case. -/
def CSV_FIELDNAMES : List String :=
  ["keyword", "video_id", "description", "like_count", "comment_count",
   "share_count", "play_count", "author_uniqueId", "author_nickname", "url"]

/-- Function `write_rows`: the produced file content (header cells, then one list
of cells per record, each cell the value under its field name, `None`
when absent as with `DictWriter` restval) paired with the returned row
count. -/
def write_rows (rows : List Row) : (List String × List (List Value)) × Nat :=
  let fieldnames :=
    match rows with
    | r :: _ => r.map Prod.fst
    | [] => CSV_FIELDNAMES
  ((fieldnames, rows.map (fun r => fieldnames.map (fun f => dictGet r f))), rows.length)

/-- Observable events of a run, in program order. -/
inductive Event where
  | createSessions (num_sessions : Nat) : Event
  | fetchKeyword (keyword : String) : Event
  | writeOutput (total : Nat) : Event
deriving DecidableEq

/-- The keyword loop of `main_async`: one fetch per keyword, in order;
a raising fetch is caught, logged and skipped (`continue`), a successful
one has its rows extended onto the aggregate.  Returns the fetch events
(in order) and the final aggregate. -/
def crawlLoop (fetchR : String → Except String (List Row)) :
    List String → List Event × List Row
  | [] => ([], [])
  | keyword :: rest =>
    let (events, aggregated) := crawlLoop fetchR rest
    match fetchR keyword with
    | Except.error _ => (Event.fetchKeyword keyword :: events, aggregated)
    | Except.ok rows => (Event.fetchKeyword keyword :: events, rows ++ aggregated)

/-- Function `main_async`: validate credentials and keywords (both raise before
any session exists), then create the sessions, run the keyword loop and
write the output.  The result is the event trace in program order
together with the aggregate; an `Except.error` is an uncaught exception
raised before any network activity. -/
def main_async (env : String → Option String) (file : Option (List (List String)))
    (api : String → List Video) (min_likes max_per_keyword : Int) :
    Except String (List Event × List Row) :=
  match ensure_ms_tokens env with
  | Except.error e => Except.error e
  | Except.ok ms_tokens =>
    match read_keywords_safe file with
    | Except.error e => Except.error e
    | Except.ok keywords =>
      let (events, aggregated) :=
        crawlLoop (fun kw => fetch_for_keyword api kw min_likes max_per_keyword) keywords
      Except.ok
        (Event.createSessions ms_tokens.length :: events
           ++ [Event.writeOutput (write_rows aggregated).2],
         aggregated)

/-- Characterization of one row of the input table: the keyword it
contributes to the output of `read_keywords`, when it survives the
filter. -/
def keywordOfRowSpec (row : List String) : Option String :=
  match row with
  | [] => none
  | cell :: _ =>
    let kw := pyStrip cell
    if kw = "" ∨ kw.toLower ∈ (["keyword", "palabra", "hashtag"] : List String) then none
    else some kw

/-- A concrete video accepted by the threshold filter, for witnesses. -/
def wVideo : Video :=
  ⟨[("id", Value.str "v1"), ("stats", Value.dict [("diggCount", Value.int 100)])], "u1"⟩

/-- The row `fetch_for_keyword` builds for `wVideo` under threshold 50. -/
def wRow : Row :=
  mkRow "k" wVideo.as_dict [("diggCount", Value.int 100)] [] 100 "u1"

/-- The normalization `parse_ms_tokens` implements, phrased as in the
spec: keep each distinct value at its first appearance, in order.  Used
only to state and compare; the executable translation of the source is
`parse_ms_tokens` itself. -/
def dedupFirst (l : List String) : List String :=
  match l with
  | [] => []
  | x :: xs => x :: dedupFirst (xs.filter (fun y => y != x))
termination_by l.length
decreasing_by simp_wf; exact Nat.lt_succ_of_le (List.length_filter_le _ _)

/-- An environment with one credential channel set, for witnesses. -/
def wEnv : String → Option String :=
  fun n => if n = "ms_token" then some "tok" else none

/-- A video whose `diggCount` is a truthy non-numeric string: Python
`int("abc")` raises `ValueError`. -/
def cexVideoBad : Video :=
  ⟨[("stats", Value.dict [("diggCount", Value.str "abc")])], "u"⟩

lemma read_keywords_eq_filterMap (rows : List (List String)) :
    read_keywords rows = rows.filterMap keywordOfRowSpec := by
  induction rows with
  | nil => rfl
  | cons row rest ih =>
    cases row with
    | nil => simpa [read_keywords, keywordOfRowSpec] using ih
    | cons cell cs =>
      by_cases h1 : pyStrip cell = ""
      · simp [read_keywords, keywordOfRowSpec, h1, ih]
      · by_cases h2 : (pyStrip cell).toLower ∈ (["keyword", "palabra", "hashtag"] : List String)
        · simp [read_keywords, keywordOfRowSpec, h1, h2, ih]
        · simp [read_keywords, keywordOfRowSpec, h1, h2, ih]

lemma processVideo_eq_some {keyword : String} {min_likes : Int} {v : Video} {r : Row}
    (h : processVideo keyword min_likes v = Except.ok (some r)) :
    ∃ stats author like_count,
      asDict (pyOr (dictGet v.as_dict "stats") (Value.dict [])) = Except.ok stats ∧
      extractLikeCount stats = Except.ok like_count ∧
      min_likes ≤ like_count ∧
      asDict (pyOr (dictGet v.as_dict "author") (Value.dict [])) = Except.ok author ∧
      r = mkRow keyword v.as_dict stats author like_count v.url := by
  unfold processVideo at h
  split at h
  · exact absurd h (by simp)
  · rename_i stats h1
    split at h
    · exact absurd h (by simp)
    · rename_i like_count h2
      split at h
      · exact absurd h (by simp)
      · rename_i h3
        split at h
        · exact absurd h (by simp)
        · rename_i author h4
          refine ⟨stats, author, like_count, h1, h2, Int.not_lt.mp h3, h4, ?_⟩
          simpa using h.symm

lemma mkRow_keys (keyword : String) (data stats author : List (String × Value))
    (like_count : Int) (url : String) :
    (mkRow keyword data stats author like_count url).map Prod.fst = CSV_FIELDNAMES := rfl

lemma mkRow_like (keyword : String) (data stats author : List (String × Value))
    (like_count : Int) (url : String) :
    dictGet (mkRow keyword data stats author like_count url) "like_count" =
      Value.int like_count := rfl

lemma processVideo_like {keyword : String} {min_likes : Int} {v : Video} {r : Row}
    (h : processVideo keyword min_likes v = Except.ok (some r)) :
    ∃ n, dictGet r "like_count" = Value.int n ∧ min_likes ≤ n := by
  obtain ⟨stats, author, like_count, _, _, hge, _, hr⟩ := processVideo_eq_some h
  exact ⟨like_count, by rw [hr]; exact mkRow_like .., hge⟩

lemma fetchGo_like {keyword : String} {min_likes max_results : Int} :
    ∀ (l : List Video) (n : Nat) (rows : List Row) (rem : List Video),
      fetchGo keyword min_likes max_results l n = Except.ok (rows, rem) →
      ∀ r ∈ rows, ∃ m, dictGet r "like_count" = Value.int m ∧ min_likes ≤ m := by
  intro l
  induction l with
  | nil =>
    intro n rows rem h r hr
    simp only [fetchGo] at h
    obtain ⟨hrows, _⟩ := Prod.mk.injEq .. ▸ (Except.ok.injEq .. ▸ h)
    subst hrows
    simp at hr
  | cons v rest ih =>
    intro n rows rem h r hr
    simp only [fetchGo] at h
    split at h
    · exact absurd h (by simp)
    · exact ih n rows rem h r hr
    · rename_i row h1
      split at h
      · simp only [Except.ok.injEq, Prod.mk.injEq] at h
        obtain ⟨hrows, _⟩ := h
        subst hrows
        rcases List.mem_singleton.mp hr with rfl
        exact processVideo_like h1
      · split at h
        · exact absurd h (by simp)
        · rename_i rows1 rem1 h3
          simp only [Except.ok.injEq, Prod.mk.injEq] at h
          obtain ⟨hrows, _⟩ := h
          subst hrows
          rcases List.mem_cons.mp hr with rfl | hmem
          · exact processVideo_like h1
          · exact ih (n + 1) rows1 rem1 h3 r hmem

/-- Claim C4: for every like-count threshold and every upstream candidate
sequence, every record returned by `fetch_for_keyword` carries a like
count that is at least the threshold. -/
theorem fetcher_respects_threshold (api : String → List Video) (keyword : String)
    (min_likes max_results : Int) (rows : List Row)
    (h : fetch_for_keyword api keyword min_likes max_results = Except.ok rows) :
    ∀ r ∈ rows, ∃ n, dictGet r "like_count" = Value.int n ∧ min_likes ≤ n := by
  unfold fetch_for_keyword at h
  cases h1 : fetchGo keyword min_likes max_results (api (lstripHashes keyword)) 0 with
  | error e => rw [h1] at h; exact absurd h (by simp [Except.map])
  | ok p =>
    rw [h1] at h
    simp only [Except.map, Except.ok.injEq] at h
    subst h
    exact fetchGo_like (api (lstripHashes keyword)) 0 p.1 p.2 (by rw [h1])

theorem fetcher_respects_threshold_witness :
    ∃ n, dictGet wRow "like_count" = Value.int n ∧ (50 : Int) ≤ n :=
  fetcher_respects_threshold (fun _ => [wVideo]) "k" 50 20 [wRow] rfl wRow
    (List.mem_singleton.mpr rfl)

/-- Claim C3: the keyword loop of the orchestrator aggregates, in original
keyword order, exactly the rows of the keywords whose fetch succeeded; a
keyword whose fetch raises contributes nothing, and the loop returns the
aggregate (an empty one when every keyword fails) instead of raising. -/
theorem orchestrator_isolates_failures (fetchR : String → Except String (List Row))
    (kws : List String) :
    (crawlLoop fetchR kws).2 =
      (kws.map (fun k =>
        match fetchR k with
        | Except.ok rows => rows
        | Except.error _ => [])).flatten := by
  induction kws with
  | nil => rfl
  | cons k rest ih =>
    cases h : fetchR k <;> simp [crawlLoop, h, ih]

/-- Claim C8: both pre-flight validations run before any session or fetch
event: a run whose credential lookup or keyword input fails produces an
uncaught error and an empty trace, and every run that produces a trace
passed both validations. -/
theorem preflight_validations_abort_run (env : String → Option String)
    (file : Option (List (List String))) (api : String → List Video)
    (min_likes max_per_keyword : Int) :
    (((ensure_ms_tokens env).isOk = false ∨ (read_keywords_safe file).isOk = false) →
      ∃ m, main_async env file api min_likes max_per_keyword = Except.error m) ∧
    (∀ trace rows, main_async env file api min_likes max_per_keyword =
        Except.ok (trace, rows) →
      (ensure_ms_tokens env).isOk = true ∧ (read_keywords_safe file).isOk = true) := by
  cases h1 : ensure_ms_tokens env with
  | error e => exact ⟨fun _ => ⟨e, by simp [main_async, h1]⟩, fun tr rows h => by
      simp [main_async, h1] at h⟩
  | ok toks =>
    cases h2 : read_keywords_safe file with
    | error e =>
      refine ⟨fun _ => ⟨e, by simp [main_async, h1, h2]⟩, fun tr rows h => by
        simp [main_async, h1, h2] at h⟩
    | ok kws =>
      refine ⟨fun hc => ?_, fun tr rows _ => by simp [h1, h2, Except.isOk, Except.toBool]⟩
      rcases hc with hc | hc <;> simp [h1, h2, Except.isOk, Except.toBool] at hc

theorem preflight_validations_abort_run_witness :
    ∃ m, main_async (fun _ => none) none (fun _ => []) 0 0 = Except.error m :=
  (preflight_validations_abort_run (fun _ => none) none (fun _ => []) 0 0).1 (Or.inl rfl)

/-- Claim C6: `read_keywords` keeps, in row order, exactly the trimmed
first cells that are non-blank and not in the header stoplist, and the
safe wrapper fails on a missing file and on an empty surviving list. -/
theorem keyword_source_contract (file : Option (List (List String))) :
    (file = none → ∃ m, read_keywords_safe file = Except.error m) ∧
    (∀ rows, file = some rows →
      read_keywords rows = rows.filterMap keywordOfRowSpec ∧
      (read_keywords rows = [] → ∃ m, read_keywords_safe file = Except.error m) ∧
      (read_keywords rows ≠ [] →
        read_keywords_safe file = Except.ok (read_keywords rows))) := by
  constructor
  · rintro rfl
    exact ⟨_, rfl⟩
  · rintro rows rfl
    refine ⟨read_keywords_eq_filterMap rows,
      fun he => ⟨"No keywords found in the first column", ?_⟩, fun hne => ?_⟩
    · simp [read_keywords_safe, he]
    · simp [read_keywords_safe, hne]

theorem keyword_source_contract_witness :
    ∃ m, read_keywords_safe none = Except.error m :=
  (keyword_source_contract none).1 rfl

/-- Claim C7: the sink always writes the ten fixed column names as the
header (the first accepted row of the fetcher carries exactly these keys
in this order, and the empty aggregate falls back to the pre-declared
list), then one data row per record in aggregate order, and returns the
number of data rows. -/
theorem result_sink_fixed_header :
    (∀ rows : List Row, (∀ r ∈ rows, r.map Prod.fst = CSV_FIELDNAMES) →
      (write_rows rows).1.1 = CSV_FIELDNAMES ∧
      (write_rows rows).1.2 =
        rows.map (fun r => CSV_FIELDNAMES.map (fun f => dictGet r f)) ∧
      (write_rows rows).2 = rows.length) ∧
    (write_rows []).1 = (CSV_FIELDNAMES, []) ∧
    (∀ keyword min_likes v r, processVideo keyword min_likes v = Except.ok (some r) →
      r.map Prod.fst = CSV_FIELDNAMES) := by
  refine ⟨fun rows hkeys => ?_, rfl, fun keyword min_likes v r h => ?_⟩
  · cases rows with
    | nil => exact ⟨rfl, rfl, rfl⟩
    | cons r rs =>
      have hr : r.map Prod.fst = CSV_FIELDNAMES := hkeys r (List.mem_cons_self r rs)
      exact ⟨by simp [write_rows, hr], by simp [write_rows, hr], rfl⟩
  · obtain ⟨stats, author, like_count, _, _, _, _, hr⟩ := processVideo_eq_some h
    rw [hr]
    exact mkRow_keys ..

theorem result_sink_fixed_header_witness :
    (write_rows [wRow]).1.1 = CSV_FIELDNAMES ∧
    (write_rows [wRow]).1.2 =
      [wRow].map (fun r => CSV_FIELDNAMES.map (fun f => dictGet r f)) ∧
    (write_rows [wRow]).2 = 1 :=
  (result_sink_fixed_header.1 [wRow] (by intro r hr; rw [List.mem_singleton.mp hr]; rfl))

section StripLemmas

variable {α : Type} (p : α → Bool)

lemma dropWhile_idem (l : List α) : (l.dropWhile p).dropWhile p = l.dropWhile p := by
  cases h : l.dropWhile p with
  | nil => simp
  | cons c cs =>
    have hc : p c = false := by
      have := List.head_dropWhile_not p l (by simp [h])
      simpa [h] using this
    simp [List.dropWhile_cons_of_neg, hc]

lemma dropWhile_append_singleton {c : α} (hc : p c = false) (xs : List α) :
    (xs ++ [c]).dropWhile p = xs.dropWhile p ++ [c] := by
  rw [List.dropWhile_append]
  split
  · rename_i h
    simp only [List.isEmpty_iff] at h
    simp [h, List.dropWhile_cons, hc]
  · rfl

lemma stripList_idem (l : List α) : stripList p (stripList p l) = stripList p l := by
  have key : (stripList p l).dropWhile p = stripList p l := by
    cases ha : l.dropWhile p with
    | nil => simp [stripList, ha]
    | cons c a' =>
      have hc : p c = false := by
        have := List.head_dropWhile_not p l (by simp [ha])
        simpa [ha] using this
      have hm0 : ((c :: a').reverse).dropWhile p = (a'.reverse).dropWhile p ++ [c] := by
        rw [List.reverse_cons]
        exact dropWhile_append_singleton p hc _
      rw [stripList, ha, hm0, List.reverse_append]
      simp [List.dropWhile_cons_of_neg, hc]
  have key2 : ((stripList p l).reverse).dropWhile p = (stripList p l).reverse := by
    rw [stripList, List.reverse_reverse]
    exact dropWhile_idem p _
  calc stripList p (stripList p l)
      = (((stripList p l).dropWhile p).reverse.dropWhile p).reverse := rfl
    _ = stripList p l := by rw [key, key2, List.reverse_reverse]

end StripLemmas

lemma pyStrip_idem (s : String) : pyStrip (pyStrip s) = pyStrip s := by
  show String.mk (stripList pyIsSpace (stripList pyIsSpace s.data)) =
    String.mk (stripList pyIsSpace s.data)
  rw [stripList_idem]

lemma mem_dedupFirst : ∀ (l : List String) (a : String), a ∈ dedupFirst l ↔ a ∈ l := by
  intro l
  induction l using dedupFirst.induct with
  | case1 => simp [dedupFirst]
  | case2 x xs ih =>
    intro a
    rw [dedupFirst]
    simp only [List.mem_cons, ih, List.mem_filter]
    constructor
    · rintro (rfl | ⟨ha, _⟩)
      · exact Or.inl rfl
      · exact Or.inr ha
    · rintro (rfl | ha)
      · exact Or.inl rfl
      · by_cases hax : a = x
        · exact Or.inl hax
        · exact Or.inr ⟨ha, bne_iff_ne.mpr hax⟩

lemma nodup_dedupFirst : ∀ l : List String, (dedupFirst l).Nodup := by
  intro l
  induction l using dedupFirst.induct with
  | case1 => simp [dedupFirst]
  | case2 x xs ih =>
    rw [dedupFirst]
    refine List.nodup_cons.mpr ⟨fun hmem => ?_, ih⟩
    have := (mem_dedupFirst _ x).mp hmem
    simp [List.mem_filter] at this

lemma dedupFirst_eq_self_of_nodup : ∀ l : List String, l.Nodup → dedupFirst l = l := by
  intro l
  induction l using dedupFirst.induct with
  | case1 => intro _; rw [dedupFirst]
  | case2 x xs ih =>
    intro hnd
    obtain ⟨hx, hxs⟩ := List.nodup_cons.mp hnd
    have hfil : xs.filter (fun y => y != x) = xs :=
      List.filter_eq_self.mpr fun a ha => bne_iff_ne.mpr fun hax => hx (hax ▸ ha)
    rw [dedupFirst, ih (by rw [hfil]; exact hxs), hfil]

lemma parseTokensGo_eq (raw : List String) : ∀ seen,
    parseTokensGo raw seen =
      dedupFirst ((raw.map pyStrip).filter
        (fun s => s != "" && !(seen.contains s))) := by
  induction raw with
  | nil => intro seen; simp [parseTokensGo, dedupFirst]
  | cons r rest ih =>
    intro seen
    simp only [parseTokensGo, List.map_cons, List.filter_cons]
    by_cases h : pyStrip r = "" ∨ pyStrip r ∈ seen
    · rw [if_pos h]
      have hp : (pyStrip r != "" && !(seen.contains (pyStrip r))) = false := by
        rcases h with h | h
        · simp [h]
        · simp [h]
      rw [hp]
      exact ih seen
    · push_neg at h
      obtain ⟨h1, h2⟩ := h
      rw [if_neg (by tauto)]
      have hp : (pyStrip r != "" && !(seen.contains (pyStrip r))) = true := by
        simp [h1, h2]
      rw [hp]
      rw [if_pos rfl]
      rw [dedupFirst]
      rw [ih (pyStrip r :: seen)]
      congr 1
      rw [List.filter_filter]
      congr 1
      apply List.filter_congr
      intro s _
      cases hb1 : s == pyStrip r <;> cases hb2 : s == "" <;>
        cases hb3 : seen.contains s <;>
          simp only [List.contains_cons, bne, Bool.not_or, hb1, hb2, hb3] <;> rfl

lemma parse_ms_tokens_eq (raw : List String) :
    parse_ms_tokens raw = dedupFirst ((raw.map pyStrip).filter (fun s => s != "")) := by
  rw [parse_ms_tokens, parseTokensGo_eq raw []]
  congr 1
  apply List.filter_congr
  intro s _
  simp

lemma parse_ms_tokens_nodup (raw : List String) : (parse_ms_tokens raw).Nodup := by
  rw [parse_ms_tokens_eq]
  exact nodup_dedupFirst _

lemma parse_ms_tokens_mem {raw : List String} {t : String}
    (ht : t ∈ parse_ms_tokens raw) : t ≠ "" ∧ pyStrip t = t := by
  rw [parse_ms_tokens_eq] at ht
  have ht2 := (mem_dedupFirst _ t).mp ht
  obtain ⟨htm, htne⟩ := List.mem_filter.mp ht2
  obtain ⟨raw0, _, rfl⟩ := List.mem_map.mp htm
  exact ⟨bne_iff_ne.mp htne, pyStrip_idem raw0⟩

/-- Claim C5: when the collected credential strings contain at least one
token that is non-empty after trimming, `get_ms_tokens` returns the
non-empty, trim-normalized, duplicate-free, first-appearance-ordered
token list; when none survives trimming it raises the configuration
error. -/
theorem token_set_contract (env : String → Option String) :
    ((∃ t ∈ collectTokens env, pyStrip t ≠ "") →
      ∃ ts, get_ms_tokens env = Except.ok ts ∧ ts ≠ [] ∧ ts.Nodup ∧
        (∀ t ∈ ts, pyStrip t = t ∧ t ≠ "") ∧
        ts = dedupFirst (((collectTokens env).map pyStrip).filter (fun s => s != ""))) ∧
    ((∀ t ∈ collectTokens env, pyStrip t = "") →
      ∃ m, get_ms_tokens env = Except.error m) := by
  have hparse := parse_ms_tokens_eq (collectTokens env)
  constructor
  · rintro ⟨t, ht, hne⟩
    have hmem : pyStrip t ∈ ((collectTokens env).map pyStrip).filter (fun s => s != "") :=
      List.mem_filter.mpr ⟨List.mem_map_of_mem pyStrip ht, bne_iff_ne.mpr hne⟩
    have hne2 : parse_ms_tokens (collectTokens env) ≠ [] := by
      rw [hparse]
      intro h0
      have := (mem_dedupFirst _ (pyStrip t)).mpr hmem
      rw [h0] at this
      simp at this
    refine ⟨parse_ms_tokens (collectTokens env), ?_, hne2, parse_ms_tokens_nodup _,
      fun x hx => ⟨(parse_ms_tokens_mem hx).2, (parse_ms_tokens_mem hx).1⟩, hparse⟩
    · simp [get_ms_tokens, hne2]
  · intro hall
    have hfil : ((collectTokens env).map pyStrip).filter (fun s => s != "") = [] := by
      rw [List.filter_eq_nil_iff]
      intro a ha
      obtain ⟨raw, hraw, rfl⟩ := List.mem_map.mp ha
      simp [hall raw hraw]
    have hnil : parse_ms_tokens (collectTokens env) = [] := by
      rw [hparse, hfil, dedupFirst]
    exact ⟨"No encontre ninguna cookie ms_token", by simp [get_ms_tokens, hnil]⟩

theorem token_set_contract_witness :
    ∃ ts, get_ms_tokens wEnv = Except.ok ts ∧ ts ≠ [] ∧ ts.Nodup ∧
      (∀ t ∈ ts, pyStrip t = t ∧ t ≠ "") ∧
      ts = dedupFirst (((collectTokens wEnv).map pyStrip).filter (fun s => s != "")) :=
  (token_set_contract wEnv).1
    ⟨"tok", by
      have h : collectTokens wEnv = ["tok"] := by
        simp [collectTokens, MS_TOKEN_ENV_NAMES, wEnv, splitSeps, splitSepsGo,
          pyIsSepChar, pyIsSpace]
      rw [h]
      exact List.mem_singleton.mpr rfl,
      by decide⟩

lemma count_filterMap_eq_countP (f : List String → Option String)
    (rows : List (List String)) (kw : String) :
    (rows.filterMap f).count kw = rows.countP (fun row => f row == some kw) := by
  induction rows with
  | nil => rfl
  | cons row rest ih =>
    rw [List.filterMap_cons]
    cases h : f row with
    | none => simp [List.countP_cons, h, ih]
    | some k => simp [List.countP_cons, List.count_cons, h, ih]

/-- Claim C9: keywords are not deduplicated: a keyword surviving the
filter in `k` rows appears `k` times in `read_keywords` output, and the
orchestrator loop issues one fetch event per occurrence — while
credential tokens are deduplicated. -/
theorem keyword_multiplicity_preserved :
    (∀ (rows : List (List String)) (kw : String),
      (read_keywords rows).count kw =
        rows.countP (fun row => keywordOfRowSpec row == some kw)) ∧
    (∀ (fetchR : String → Except String (List Row)) (kws : List String) (kw : String),
      (crawlLoop fetchR kws).1.count (Event.fetchKeyword kw) = kws.count kw) ∧
    (∀ raws : List String, (parse_ms_tokens raws).Nodup) := by
  refine ⟨fun rows kw => ?_, fun fetchR kws kw => ?_, parse_ms_tokens_nodup⟩
  · rw [read_keywords_eq_filterMap]
    exact count_filterMap_eq_countP keywordOfRowSpec rows kw
  · induction kws with
    | nil => rfl
    | cons k rest ih =>
      cases h : fetchR k <;>
        simp [crawlLoop, h, List.count_cons, ih, Event.fetchKeyword.injEq]

/-- Claim C10: `parse_ms_tokens` is idempotent, and every token it
returns is non-empty and fixed by trimming. -/
theorem token_normalization_idempotent (xs : List String) :
    parse_ms_tokens (parse_ms_tokens xs) = parse_ms_tokens xs ∧
    ∀ t ∈ parse_ms_tokens xs, t ≠ "" ∧ pyStrip t = t := by
  refine ⟨?_, fun t ht => parse_ms_tokens_mem ht⟩
  rw [parse_ms_tokens_eq (parse_ms_tokens xs)]
  have hmap : (parse_ms_tokens xs).map pyStrip = parse_ms_tokens xs := by
    have h := List.map_congr_left
      (fun a ha => (@parse_ms_tokens_mem xs a ha).2 : ∀ a ∈ parse_ms_tokens xs,
        pyStrip a = id a)
    rw [h]
    exact List.map_id _
  have hfil : (parse_ms_tokens xs).filter (fun s => s != "") = parse_ms_tokens xs :=
    List.filter_eq_self.mpr fun a ha => bne_iff_ne.mpr (parse_ms_tokens_mem ha).1
  rw [hmap, hfil]
  exact dedupFirst_eq_self_of_nodup _ (parse_ms_tokens_nodup xs)

theorem token_normalization_idempotent_witness :
    ("a" : String) ≠ "" ∧ pyStrip "a" = "a" :=
  (token_normalization_idempotent ["a"]).2 "a"
    (by rw [show parse_ms_tokens ["a"] = ["a"] from rfl]; exact List.mem_singleton.mpr rfl)

/-- Claim C2 (amended): within one metadata item, whenever the stats and
author fields are dictionaries after the falsy-substitution (`or {}`) and
the like-count value is one `int()` accepts, the item is processed
without raising; and a missing or falsy `diggCount` is treated as like
count zero.  (A truthy non-numeric `diggCount`, by contrast, raises —
see the counterexample.) -/
theorem malformed_fields_tolerated (kw : String) (T : Int) (v : Video)
    (stats author : List (String × Value))
    (hs : pyOr (dictGet v.as_dict "stats") (Value.dict []) = Value.dict stats)
    (ha : pyOr (dictGet v.as_dict "author") (Value.dict []) = Value.dict author)
    (hd : (extractLikeCount stats).isOk = true) :
    (processVideo kw T v).isOk = true ∧
    (pyFalsy (dictGetD stats "diggCount" (Value.int 0)) = true →
      extractLikeCount stats = Except.ok 0) := by
  constructor
  · obtain ⟨lc, hlc⟩ : ∃ lc, extractLikeCount stats = Except.ok lc := by
      cases hx : extractLikeCount stats with
      | ok n => exact ⟨n, rfl⟩
      | error e => rw [hx] at hd; simp [Except.isOk, Except.toBool] at hd
    by_cases hlt : lc < T
    · simp [processVideo, hs, asDict, hlc, hlt, Except.isOk, Except.toBool]
    · simp [processVideo, hs, ha, asDict, hlc, hlt, Except.isOk, Except.toBool]
  · intro hf
    simp [extractLikeCount, pyOr, hf, pyInt]

theorem malformed_fields_tolerated_witness :
    (processVideo "k" 50 wVideo).isOk = true ∧
    (pyFalsy (dictGetD [("diggCount", Value.int 100)] "diggCount" (Value.int 0)) = true →
      extractLikeCount [("diggCount", Value.int 100)] = Except.ok 0) :=
  malformed_fields_tolerated "k" 50 wVideo [("diggCount", Value.int 100)] [] rfl rfl rfl

theorem malformed_fields_counterexample :
    fetch_for_keyword (fun _ => [cexVideoBad]) "kw" 0 20 =
      Except.error "invalid literal for int() with base 10" := rfl

theorem fetch_cap_zero_counterexample :
    fetch_for_keyword (fun _ => [wVideo]) "k" 0 0 = Except.ok [wRow] ∧
    [wRow].length ≠ min 1 0 ∧ ¬ [wRow].length ≤ 0 :=
  ⟨rfl, by decide, by decide⟩

lemma acceptedRow_of_ok_some {kw : String} {T : Int} {v : Video} {row : Row}
    (hp : processVideo kw T v = Except.ok (some row)) :
    acceptedRow kw T v = some row := by
  simp [acceptedRow, hp]

lemma acceptedRow_of_ok_none {kw : String} {T : Int} {v : Video}
    (hp : processVideo kw T v = Except.ok none) :
    acceptedRow kw T v = none := by
  simp [acceptedRow, hp]

lemma fetchGo_spec {kw : String} {T C : Int} :
    ∀ (l : List Video) (n : Nat),
      (∀ v ∈ l, (processVideo kw T v).isOk = true) → (n : Int) < C →
      ∃ rem, fetchGo kw T C l n =
        Except.ok ((l.filterMap (acceptedRow kw T)).take (C.toNat - n), rem) := by
  intro l
  induction l with
  | nil =>
    intro n _ _
    exact ⟨[], by simp [fetchGo]⟩
  | cons v rest ih =>
    intro n hok hn
    cases hp : processVideo kw T v with
    | error e =>
      have := hok v (List.mem_cons_self v rest)
      rw [hp] at this
      simp [Except.isOk, Except.toBool] at this
    | ok o =>
      cases o with
      | none =>
        obtain ⟨rem, hrem⟩ := ih n (fun w hw => hok w (List.mem_cons_of_mem _ hw)) hn
        exact ⟨rem, by
          simp only [fetchGo, hp, List.filterMap_cons, acceptedRow_of_ok_none hp]
          exact hrem⟩
      | some row =>
        by_cases hge : ((n + 1 : Nat) : Int) ≥ C
        · have ht : C.toNat - n = 1 := by omega
          refine ⟨rest, ?_⟩
          simp only [fetchGo, hp, if_pos hge, List.filterMap_cons,
            acceptedRow_of_ok_some hp, ht, List.take_succ_cons, List.take_zero]
        · push_neg at hge
          obtain ⟨rem, hrem⟩ :=
            ih (n + 1) (fun w hw => hok w (List.mem_cons_of_mem _ hw)) hge
          refine ⟨rem, ?_⟩
          simp only [fetchGo, hp, if_neg (not_le.mpr hge), hrem,
            List.filterMap_cons, acceptedRow_of_ok_some hp]
          have hsucc : C.toNat - n = (C.toNat - (n + 1)) + 1 := by omega
          rw [hsucc, List.take_succ_cons]

lemma fetchGo_fst_append {kw : String} {T C : Int} :
    ∀ (l : List Video) (n : Nat) (extra : List Video),
      (n : Int) < C → C.toNat - n ≤ (l.filterMap (acceptedRow kw T)).length →
      (fetchGo kw T C (l ++ extra) n).map Prod.fst =
        (fetchGo kw T C l n).map Prod.fst := by
  intro l
  induction l with
  | nil =>
    intro n extra hn hlen
    exfalso
    simp only [List.filterMap_nil, List.length_nil, Nat.le_zero] at hlen
    omega
  | cons v rest ih =>
    intro n extra hn hlen
    rw [List.filterMap_cons] at hlen
    simp only [List.cons_append, fetchGo]
    cases hp : processVideo kw T v with
    | error e => rfl
    | ok o =>
      cases o with
      | none =>
        rw [acceptedRow_of_ok_none hp] at hlen
        exact ih n extra hn hlen
      | some row =>
        rw [acceptedRow_of_ok_some hp] at hlen
        by_cases hge : ((n + 1 : Nat) : Int) ≥ C
        · have hge' : C ≤ (n : Int) + 1 := by exact_mod_cast hge
          simp [hge', Except.map]
        · push_neg at hge
          have hlt2 : ¬ C ≤ ((n + 1 : Nat) : Int) := not_le.mpr hge
          have hlen2 : C.toNat - (n + 1) ≤ (rest.filterMap (acceptedRow kw T)).length := by
            simp only [List.length_cons] at hlen
            omega
          have hfst := ih (n + 1) extra hge hlen2
          dsimp only
          simp only [ge_iff_le]
          rw [if_neg hlt2, if_neg hlt2]
          cases h1 : fetchGo kw T C (rest ++ extra) (n + 1) with
          | error e =>
            cases h2 : fetchGo kw T C rest (n + 1) with
            | error e2 =>
              rw [h1, h2] at hfst
              simp only [Except.map] at hfst ⊢
              exact hfst
            | ok p =>
              rw [h1, h2] at hfst
              simp [Except.map] at hfst
          | ok p =>
            cases h2 : fetchGo kw T C rest (n + 1) with
            | error e2 =>
              rw [h1, h2] at hfst
              simp [Except.map] at hfst
            | ok q =>
              obtain ⟨rows1, rem1⟩ := p
              obtain ⟨rows2, rem2⟩ := q
              rw [h1, h2] at hfst
              simp only [Except.map, Except.ok.injEq] at hfst
              simp only [Except.map, Except.ok.injEq]
              simp [hfst]

/-- Claim C1 (amended): for every cap `C ≥ 1`, when every candidate
processes without raising, `fetch_for_keyword` returns exactly the first
`min(K, C)` accepted records in upstream order (`K` the number of
candidates meeting the threshold), and once the accepted count reaches
`C` the remaining candidates are never consumed.  (For `C ≤ 0` the cap
check fires only after the first accepted record is appended, so one
record is still returned — see the counterexample.) -/
theorem fetcher_cap_and_order (kw : String) (T C : Int) (hC : 1 ≤ C)
    (vids : List Video)
    (hok : ∀ v ∈ vids, (processVideo kw T v).isOk = true) :
    fetch_for_keyword (fun _ => vids) kw T C =
      Except.ok ((vids.filterMap (acceptedRow kw T)).take C.toNat) ∧
    ((vids.filterMap (acceptedRow kw T)).take C.toNat).length =
      min (vids.filterMap (acceptedRow kw T)).length C.toNat ∧
    (∀ extra : List Video, C.toNat ≤ (vids.filterMap (acceptedRow kw T)).length →
      fetch_for_keyword (fun _ => vids ++ extra) kw T C =
        fetch_for_keyword (fun _ => vids) kw T C) := by
  have h0 : ((0 : Nat) : Int) < C := by omega
  refine ⟨?_, ?_, ?_⟩
  · obtain ⟨rem, hrem⟩ := fetchGo_spec vids 0 hok h0
    simp only [fetch_for_keyword, hrem, Except.map, Nat.sub_zero]
  · rw [List.length_take, Nat.min_comm]
  · intro extra hlen
    simp only [fetch_for_keyword]
    exact fetchGo_fst_append vids 0 extra h0 (by omega)

theorem fetcher_cap_and_order_witness :
    fetch_for_keyword (fun _ => [wVideo, wVideo, wVideo]) "k" 0 2 =
      Except.ok ((([wVideo, wVideo, wVideo]).filterMap (acceptedRow "k" 0)).take
        (2 : Int).toNat) ∧
    ((([wVideo, wVideo, wVideo]).filterMap (acceptedRow "k" 0)).take
        (2 : Int).toNat).length =
      min (([wVideo, wVideo, wVideo]).filterMap (acceptedRow "k" 0)).length
        (2 : Int).toNat ∧
    (∀ extra : List Video,
      (2 : Int).toNat ≤ (([wVideo, wVideo, wVideo]).filterMap (acceptedRow "k" 0)).length →
      fetch_for_keyword (fun _ => [wVideo, wVideo, wVideo] ++ extra) "k" 0 2 =
        fetch_for_keyword (fun _ => [wVideo, wVideo, wVideo]) "k" 0 2) :=
  fetcher_cap_and_order "k" 0 2 (by decide) [wVideo, wVideo, wVideo] (by decide)

end TiktokTrends
